import Mathlib

/-!
# Verification of the `vform` form container (`src/Form.ts`)

This file gives a shallow embedding of the `Form` class of `src/Form.ts`
and proves or refutes the specification claims about it.

Two embeddings are used:

* a **tree model**, in which JavaScript values are pure trees (`JSON`),
  JavaScript objects are association lists of properties in insertion
  order, and every `Form` operation is a pure function on a `Form`
  structure holding the object's own properties.  This model is used for
  all claims that do not depend on reference sharing.

* a **heap model** (`HVal`/`Heap`, further below), in which structured
  values are references into an explicit heap, used for the claims about
  aliasing and in-place mutation (the deep-copy boundary of `data()` and
  the in-place mutation of the caller's request config in `submit`).

Notes on modelling fidelity:
* JavaScript numbers are modelled as `Int`; no claim depends on
  floating-point behaviour.
* Property iteration order is modelled as insertion order; the JavaScript
  reordering of integer-like keys ahead of string keys is not modelled
  (no claim exercises integer-like property keys).
* `deepCopy` from `src/util.ts` and the `Errors` class of `src/Errors.ts`
  are not under `src/`; they are modelled from the spec where used
  (marked `Modelled from the spec:` below).
-/

/-- A JavaScript value, as a pure tree.  Objects and arrays carry their
own enumerable string-keyed properties in insertion order. -/
inductive JSON where
  | null : JSON
  | undefined : JSON
  | bool : Bool → JSON
  | num : Int → JSON
  | str : String → JSON
  | obj : List (String × JSON) → JSON
  | arr : List JSON → JSON

/-- JavaScript truthiness: `false`, `0`, `""`, `null` and `undefined` are
falsy, everything else (in particular every object and array) is truthy. -/
def truthy : JSON → Bool
  | .null => false
  | .undefined => false
  | .bool b => b
  | .num n => n != 0
  | .str s => s ≠ ""
  | .obj _ => true
  | .arr _ => true

/-- JavaScript `typeof v === 'object'`: true for objects, arrays and `null`. -/
def typeofIsObject : JSON → Bool
  | .null => true
  | .obj _ => true
  | .arr _ => true
  | _ => false

/-- Look up a key in an association list of properties. -/
def getA {α : Type} : List (String × α) → String → Option α
  | [], _ => none
  | (k', v) :: rest, k => if k' = k then some v else getA rest k

/-- Assign a property: replace the value in place if the key is present
(keeping its position, as JavaScript does), otherwise append it. -/
def setA {α : Type} : List (String × α) → String → α → List (String × α)
  | [], k, v => [(k, v)]
  | (k', v') :: rest, k, v =>
      if k' = k then (k', v) :: rest else (k', v') :: setA rest k v

/-- Property read with JavaScript's `undefined` default. -/
def getD (o : List (String × JSON)) (k : String) : JSON :=
  (getA o k).getD .undefined

/-- The own enumerable properties a value contributes to `Object.assign`
and object spread: objects give their properties, strings their indexed
characters, arrays their indexed elements; primitives give none. -/
def ownProps : JSON → List (String × JSON)
  | .obj fs => fs
  | .str s => (s.data.enum).map (fun ic => (toString ic.1, .str (String.mk [ic.2])))
  | .arr vs => (vs.enum).map (fun iv => (toString iv.1, iv.2))
  | _ => []

/-- JavaScript `Object.assign(target, source)` / spreading `source` onto `target`:
fold property assignment over the source's own properties. -/
def assignProps {α : Type} (target : List (String × α)) (src : List (String × α)) :
    List (String × α) :=
  src.foldl (fun t kv => setA t kv.1 kv.2) target

/-- Member access `v[k]` on an arbitrary value: property lookup on
objects; indexed characters and `length` on strings and arrays;
`undefined` on other primitives. -/
def getMember : JSON → String → JSON
  | .obj fs, k => getD fs k
  | .str s, k =>
      if k = "length" then .num s.length
      else getD (ownProps (.str s)) k
  | .arr vs, k =>
      if k = "length" then .num vs.length
      else getD (ownProps (.arr vs)) k
  | _, _ => .undefined

/-- JavaScript `a || b` (used by the code as `config.params || {}`). -/
def orJS (a b : JSON) : JSON := if truthy a then a else b

/-- The ignore list `Form.ignore = ['busy', 'successful', 'errors', 'originalData']`. -/
def ignoreKeys : List String := ["busy", "successful", "errors", "originalData"]

/-- The default message `Form.errorMessage`. -/
def errorMessage : String := "Something went wrong. Please try again."

/-- The tree-model form instance: the JavaScript object's own enumerable
properties in insertion order.  The class-field initializers put
`originalData`, `busy`, `successful` and `errors` there before the
constructor body runs; the `errors` property holds the `Errors`
instance, modelled by its `messages` record (Modelled from the spec:
`src/Errors.ts` is not under `src/`; §4.2 specifies a field→message(s)
mapping with wholesale `set` and `clear`). -/
structure Form where
  props : List (String × JSON)

/-- The form state produced by the class-field initializers, before the
constructor body runs. -/
def initForm : Form :=
  ⟨[("originalData", .obj []), ("busy", .bool false),
    ("successful", .bool false), ("errors", .obj [])]⟩

/-- Modelled from the spec: `deepCopy` of `src/util.ts` (not under
`src/`) is "a pure function: `deepCopy(value) -> independent structural
copy`".  In the pure tree model a structural copy is the value itself;
independence of storage is treated in the heap model below. -/
def deepCopy (v : JSON) : JSON := v

/-- Method `update(data)`:
`this.originalData = Object.assign({}, this.originalData, deepCopy(data));
Object.assign(this, data)`. -/
def Form.update (f : Form) (data : JSON) : Form :=
  let od := JSON.obj (assignProps
    (assignProps [] (ownProps (getD f.props "originalData")))
    (ownProps (deepCopy data)))
  let f1 : Form := ⟨setA f.props "originalData" od⟩
  ⟨assignProps f1.props (ownProps data)⟩

/-- The `constructor(data = {})`: `this.update(data)` on the
field-initialized instance. -/
def mkForm (data : JSON) : Form := initForm.update data

/-- Method `keys()`: `Object.keys(this).filter(key => !Form.ignore.includes(key))`. -/
def Form.keys (f : Form) : List String :=
  (f.props.map Prod.fst).filter (fun k => ¬ k ∈ ignoreKeys)

/-- Method `data()`: `keys().reduce((data, key) => ({ ...data, [key]: this[key] }), {})`. -/
def Form.data (f : Form) : JSON :=
  .obj (f.keys.foldl (fun acc k => setA acc k (getD f.props k)) [])

/-- Ad-hoc field assignments `form[k] = v`, applied in order; used to
model arbitrary mutation of the bound fields between operations. -/
def Form.assignFields (f : Form) (m : List (String × JSON)) : Form :=
  ⟨assignProps f.props m⟩

/-- Method `reset()`: for every own key not in the ignore list (snapshot taken
up front), `this[key] = deepCopy(this.originalData[key])`, reading
`this.originalData` from the current state at each step. -/
def Form.reset (f : Form) : Form :=
  ⟨((f.props.map Prod.fst).filter (fun k => ¬ k ∈ ignoreKeys)).foldl
     (fun ps k => setA ps k (deepCopy (getMember (getD ps "originalData") k)))
     f.props⟩

/-- Method `startProcessing()`: `this.errors.clear(); this.busy = true;
this.successful = false`.  `errors.clear()` empties the error mapping
(Modelled from the spec: §4.2 `clear()` with no field empties the whole
mapping). -/
def Form.startProcessing (f : Form) : Form :=
  ⟨setA (setA (setA f.props "errors" (.obj [])) "busy" (.bool true))
     "successful" (.bool false)⟩

/-- Method `finishProcessing()`: `this.busy = false; this.successful = true`. -/
def Form.finishProcessing (f : Form) : Form :=
  ⟨setA (setA f.props "busy" (.bool false)) "successful" (.bool true)⟩

/-- Method `extractErrors(response)`, over the response body `response.data`. -/
def extractErrors (d : JSON) : List (String × JSON) :=
  if ¬ truthy d ∨ ¬ typeofIsObject d then [("error", .str errorMessage)]
  else if truthy (getMember d "errors") then
    assignProps [] (ownProps (getMember d "errors"))
  else if truthy (getMember d "message") then
    [("error", getMember d "message")]
  else assignProps [] (ownProps d)

/-- An axios response, reduced to the only part the form reads: its
`data` body. -/
structure Resp where
  data : JSON

/-- An axios error: a transport failure optionally carrying a response. -/
structure AxiosErr where
  response : Option Resp

/-- Method `handleErrors(error)`: `this.busy = false; if (error.response)
this.errors.set(this.extractErrors(error.response))`.  `errors.set`
replaces the whole mapping (Modelled from the spec: §4.2 `set(messages)`
is a wholesale replace). -/
def Form.handleErrors (f : Form) (error : AxiosErr) : Form :=
  let f1 : Form := ⟨setA f.props "busy" (.bool false)⟩
  match error.response with
  | some r => ⟨setA f1.props "errors" (.obj (extractErrors r.data))⟩
  | none => f1

/-- JavaScript `method.toLowerCase()` (ASCII; no claim uses non-ASCII methods). -/
def toLowerStr (s : String) : String := ⟨s.data.map Char.toLower⟩

/-- The outcome of the dispatched transport call: the promise either
fulfills with a response or rejects with an axios error. -/
inductive Outcome where
  | success : Resp → Outcome
  | failure : AxiosErr → Outcome

/-- One `submit(method, url, config)` run, with the transport outcome
supplied externally.  Returns the final form state, the caller's config
object's final contents (the code mutates `config` in place; aliasing
itself is treated in the heap model), and the settlement of the returned
promise.  Translation of:
`startProcessing();
 if (method.toLowerCase() === 'get')
   config.params = { ...this.data(), ...(config.params || {}) }
 else config.data = { ...this.data(), ...(config.data || {}) };
 request(...).then(r => { finishProcessing(); resolve(r) })
             .catch(e => { this.handleErrors(e); reject(e) })`. -/
def Form.submitStep (f : Form) (method : String) (cfg : List (String × JSON))
    (outcome : Outcome) :
    Form × List (String × JSON) × Except AxiosErr Resp :=
  let f1 := f.startProcessing
  let cfg1 :=
    if toLowerStr method = "get" then
      setA cfg "params" (.obj (assignProps
        (assignProps [] (ownProps f1.data))
        (ownProps (orJS (getD cfg "params") (.obj [])))))
    else
      setA cfg "data" (.obj (assignProps
        (assignProps [] (ownProps f1.data))
        (ownProps (orJS (getD cfg "data") (.obj [])))))
  match outcome with
  | .success r => (f1.finishProcessing, cfg1, .ok r)
  | .failure e => (f1.handleErrors e, cfg1, .error e)

/-! ## Route resolution (`route(name, parameters = {})`) -/

/-- Hexadecimal digit value, as in URI escape sequences. -/
def hexDigit? (c : Char) : Option Nat :=
  if '0' ≤ c ∧ c ≤ '9' then some (c.toNat - 48)
  else if 'A' ≤ c ∧ c ≤ 'F' then some (c.toNat - 55)
  else if 'a' ≤ c ∧ c ≤ 'f' then some (c.toNat - 87)
  else none

/-- The characters `decodeURI` leaves escaped: the URI reserved set plus
`#`. -/
def uriUnescapedReserved (c : Char) : Bool :=
  c ∈ [';', '/', '?', ':', '@', '&', '=', '+', '$', ',', '#']

/-- ECMAScript `decodeURI`, character by character.  `%XY` sequences are
decoded as UTF-8; single-byte decodings in the reserved set keep their
original escape text; malformed escapes or invalid UTF-8 throw a
`URIError`, modelled as `none`. -/
def decodeURIChars : List Char → Option (List Char)
  | [] => some []
  | '%' :: t =>
      match t with
      | h1 :: h2 :: rest =>
        match hexDigit? h1, hexDigit? h2 with
        | some a, some b0 =>
          let b := 16 * a + b0
          if b < 128 then
            let ch := Char.ofNat b
            if uriUnescapedReserved ch then
              (decodeURIChars rest).map (fun tail => '%' :: h1 :: h2 :: tail)
            else (decodeURIChars rest).map (ch :: ·)
          else if 192 ≤ b ∧ b < 224 then
            match rest with
            | '%' :: c1 :: c2 :: rest2 =>
              match hexDigit? c1, hexDigit? c2 with
              | some x, some y =>
                let cb := 16 * x + y
                if 128 ≤ cb ∧ cb < 192 then
                  let cp := (b - 192) * 64 + (cb - 128)
                  if 128 ≤ cp then (decodeURIChars rest2).map (Char.ofNat cp :: ·)
                  else none
                else none
              | _, _ => none
            | _ => none
          else if 224 ≤ b ∧ b < 240 then
            match rest with
            | '%' :: c1 :: c2 :: '%' :: d1 :: d2 :: rest2 =>
              match hexDigit? c1, hexDigit? c2, hexDigit? d1, hexDigit? d2 with
              | some x, some y, some z, some w =>
                let cb1 := 16 * x + y
                let cb2 := 16 * z + w
                if (128 ≤ cb1 ∧ cb1 < 192) ∧ (128 ≤ cb2 ∧ cb2 < 192) then
                  let cp := (b - 224) * 4096 + (cb1 - 128) * 64 + (cb2 - 128)
                  if 2048 ≤ cp ∧ ¬ (55296 ≤ cp ∧ cp ≤ 57343) then
                    (decodeURIChars rest2).map (Char.ofNat cp :: ·)
                  else none
                else none
              | _, _, _, _ => none
            | _ => none
          else if 240 ≤ b ∧ b < 248 then
            match rest with
            | '%' :: c1 :: c2 :: '%' :: d1 :: d2 :: '%' :: e1 :: e2 :: rest2 =>
              match hexDigit? c1, hexDigit? c2, hexDigit? d1, hexDigit? d2,
                    hexDigit? e1, hexDigit? e2 with
              | some x, some y, some z, some w, some u, some v =>
                let cb1 := 16 * x + y
                let cb2 := 16 * z + w
                let cb3 := 16 * u + v
                if (128 ≤ cb1 ∧ cb1 < 192) ∧ (128 ≤ cb2 ∧ cb2 < 192) ∧
                   (128 ≤ cb3 ∧ cb3 < 192) then
                  let cp := (b - 240) * 262144 + (cb1 - 128) * 4096 +
                            (cb2 - 128) * 64 + (cb3 - 128)
                  if 65536 ≤ cp ∧ cp ≤ 1114111 then
                    (decodeURIChars rest2).map (Char.ofNat cp :: ·)
                  else none
                else none
              | _, _, _, _, _, _ => none
            | _ => none
          else none
        | _, _ => none
      | _ => none
  | c :: t => (decodeURIChars t).map (c :: ·)

/-- Function `decodeURI(s)`; `none` models a thrown `URIError`. -/
def decodeURI (s : String) : Option String :=
  (decodeURIChars s.data).map String.mk

/-- Split a character list around the first occurrence of `pat`
(`none` when `pat` does not occur). -/
def splitFirst (pat : List Char) : List Char → Option (List Char × List Char)
  | [] => if pat.isEmpty then some ([], []) else none
  | c :: rest =>
      if pat.isPrefixOf (c :: rest) then some ([], (c :: rest).drop pat.length)
      else (splitFirst pat rest).map (fun p => (c :: p.1, p.2))

/-- The `$`-substitution JavaScript applies to the replacement string of
`String.prototype.replace` (string pattern, so no capture groups:
`$$`, `$&`, the backtick form and `$'`; anything else stays literal). -/
def substDollar (matched before after : List Char) : List Char → List Char
  | [] => []
  | '$' :: '$' :: rest => '$' :: substDollar matched before after rest
  | '$' :: '&' :: rest => matched ++ substDollar matched before after rest
  | '$' :: c :: rest =>
      if c = Char.ofNat 96 then before ++ substDollar matched before after rest
      else if c = Char.ofNat 39 then after ++ substDollar matched before after rest
      else '$' :: c :: substDollar matched before after rest
  | c :: rest => c :: substDollar matched before after rest

/-- JavaScript `s.replace(pat, repl)` with a string pattern: replaces
only the first occurrence. -/
def replaceJS (s pat repl : String) : String :=
  match splitFirst pat.data s.data with
  | none => s
  | some (before, after) =>
      ⟨before ++ substDollar pat.data before after repl.data ++ after⟩

/-- JavaScript string coercion `String(v)` for the values used as
placeholder replacements.  Arrays join their (shallow) element strings
with commas, `null`/`undefined` elements becoming empty. -/
def jsToString : JSON → String
  | .str s => s
  | .num n => toString n
  | .bool b => toString b
  | .null => "null"
  | .undefined => "undefined"
  | .obj _ => "[object Object]"
  | .arr vs => String.intercalate ","
      (vs.attach.map (fun v =>
        match v.1 with
        | .null => ""
        | .undefined => ""
        | .str s => s
        | .num n => toString n
        | .bool b => toString b
        | .obj _ => "[object Object]"
        | .arr _ => "[nested array]"))

/-- Method `route(name, parameters = {})`:
`let url = name;
 if (hasOwnProperty(Form.routes, name)) url = decodeURI(Form.routes[name]);
 if (typeof parameters !== 'object') parameters = { id: parameters };
 Object.keys(parameters).forEach(key =>
   url = url.replace(`\x7b${key}\x7d`, parameters[key]));
 return url`.
`none` models a thrown error (a `URIError` from `decodeURI`, or the
`TypeError` of `Object.keys(null)`). -/
def route (routes : List (String × String)) (name : String)
    (parameters : JSON) : Option String :=
  let decoded : Option String :=
    match getA routes name with
    | some t => decodeURI t
    | none => some name
  match decoded with
  | none => none
  | some url1 =>
    let pobj : Option (List (String × JSON)) :=
      if typeofIsObject parameters then
        match parameters with
        | .obj fs => some fs
        | .arr vs => some (ownProps (.arr vs))
        | _ => none
      else some [("id", parameters)]
    match pobj with
    | none => none
    | some fs =>
        some ((fs.map Prod.fst).foldl
          (fun u k => replaceJS u ("\x7b" ++ k ++ "\x7d") (jsToString (getD fs k)))
          url1)

/-! ## Heap model

Used for the claims about reference sharing: structured values are
references into an explicit heap of objects.  Only the bound-field
properties of the form are tracked (`originalData` and the fields); the
control flags are covered by the tree model above. -/

/-- A heap-model JavaScript value: a primitive or a reference to a heap
object. -/
inductive HVal where
  | null : HVal
  | undefined : HVal
  | bool : Bool → HVal
  | num : Int → HVal
  | str : String → HVal
  | ref : Nat → HVal
deriving DecidableEq

/-- A heap object: own enumerable properties in insertion order. -/
abbrev HObj := List (String × HVal)

/-- The heap: objects addressed by allocation index. -/
abbrev Heap := List HObj

/-- The object stored at an address. -/
def getCell (h : Heap) (a : Nat) : HObj := h.getD a []

/-- Read property `k` of the object at address `a`. -/
def getPropH (h : Heap) (a : Nat) (k : String) : HVal :=
  (getA (getCell h a) k).getD .undefined

/-- In-place property write `o.k = v` on the object at address `a`. -/
def writeProp (h : Heap) (a : Nat) (k : String) (v : HVal) : Heap :=
  h.set a (setA (getCell h a) k v)

/-- Allocate a fresh object, returning the new heap and its address. -/
def alloc (h : Heap) (o : HObj) : Heap × Nat := (h ++ [o], h.length)

/-- Heap-model truthiness (references are objects, hence truthy). -/
def truthyH : HVal → Bool
  | .null => false
  | .undefined => false
  | .bool b => b
  | .num n => n != 0
  | .str s => s ≠ ""
  | .ref _ => true

/-- Own enumerable properties contributed to spread / `Object.assign` by
a heap value. -/
def spreadH (h : Heap) : HVal → HObj
  | .ref a => getCell h a
  | .str s => (s.data.enum).map (fun ic => (toString ic.1, .str (String.mk [ic.2])))
  | _ => []

/-- Copy every property value of an object with the supplied value-copy
function, threading the heap left to right. -/
def copyEach (g : Heap → HVal → Heap × HVal) : Heap → HObj → Heap × HObj
  | h, [] => (h, [])
  | h, (k, v) :: rest =>
      let (h1, v') := g h v
      let (h2, rest') := copyEach g h1 rest
      (h2, (k, v') :: rest')

/-- Modelled from the spec: `deepCopy` of `src/util.ts` (not under
`src/`), "independent structural copy": recursively copies an object
graph, allocating a fresh cell for every reachable object; primitives
copy as themselves.  `fuel` bounds the reference depth (the source
function does not terminate on cyclic structures). -/
def deepCopyV : Nat → Heap → HVal → Heap × HVal
  | 0, h, _ => (h, .undefined)
  | fuel + 1, h, .ref a =>
      let (h1, inner) := copyEach (deepCopyV fuel) h (getCell h a)
      let (h2, na) := alloc h1 inner
      (h2, .ref na)
  | _ + 1, h, v => (h, v)

/-- Deep-copy the properties of an object (the top level of
`deepCopy(data)` as consumed by `Object.assign`). -/
def deepCopyProps (fuel : Nat) (h : Heap) (o : HObj) : Heap × HObj :=
  copyEach (deepCopyV fuel) h o

/-- The heap-model form: its baseline object's properties and its bound
field properties. -/
structure HForm where
  originalData : HObj
  fields : HObj

/-- Heap-model `update(data)`: the baseline becomes a fresh object
holding `Object.assign({}, originalData, deepCopy(data))`, and the data
properties are assigned onto the live fields sharing the caller's
references (`Object.assign(this, data)` copies references, not
structure). -/
def HForm.update (fuel : Nat) (h : Heap) (f : HForm) (dataProps : HObj) :
    Heap × HForm :=
  let (h1, copied) := deepCopyProps fuel h dataProps
  (h1, { originalData := assignProps (assignProps [] f.originalData) copied,
         fields := assignProps f.fields dataProps })

/-- The property list of the mapping `data()` returns: the bound field
keys with the very same (possibly shared) value references.  This is
only the contents; the fresh top-level object that `data()` allocates is
modelled by `HForm.dataCall` below. -/
def HForm.data (f : HForm) : HObj := f.fields

/-- Heap-model `data()` as a call:
`keys().reduce((data, key) => ({ ...data, [key]: this[key] }), {})`
allocates a fresh top-level object holding the bound field keys with the
same value references, and returns a reference to it (returned here as
the new heap and the fresh address).  The transient objects of the
intermediate spread steps are unobservable and omitted; only the
returned object is allocated. -/
def HForm.dataCall (f : HForm) (h : Heap) : Heap × Nat :=
  alloc h f.data

/-- Deep observation of a heap value as a tree, following references up
to `fuel` steps. -/
def deepReadV : Nat → Heap → HVal → JSON
  | 0, _, _ => .undefined
  | _ + 1, _, .null => .null
  | _ + 1, _, .undefined => .undefined
  | _ + 1, _, .bool b => .bool b
  | _ + 1, _, .num n => .num n
  | _ + 1, _, .str s => .str s
  | fuel + 1, h, .ref a =>
      .obj ((getCell h a).map (fun kv => (kv.1, deepReadV fuel h kv.2)))

/-- The addresses reachable from a heap value within `fuel` steps. -/
def reachV : Nat → Heap → HVal → List Nat
  | 0, _, _ => []
  | fuel + 1, h, .ref a =>
      a :: (getCell h a).foldr (fun kv acc => reachV fuel h kv.2 ++ acc) []
  | _ + 1, _, _ => []

/-- Deep observation of a property list (e.g. the baseline snapshot or
the mapping returned by `data()`). -/
def deepReadProps (fuel : Nat) (h : Heap) (o : HObj) : List (String × JSON) :=
  o.map (fun kv => (kv.1, deepReadV fuel h kv.2))

/-- The addresses reachable from the values of a property list. -/
def reachProps (fuel : Nat) (h : Heap) (o : HObj) : List Nat :=
  o.foldr (fun kv acc => reachV fuel h kv.2 ++ acc) []

/-- The config-mutation step of `submit` in the heap model: with the
caller's request config living at address `cfgA`,
`config.params = { ...this.data(), ...(config.params || {}) }` (for a
case-insensitive `get`) or the same with `config.data` (otherwise)
allocates the merged payload as a fresh object and writes a reference to
it into the caller's config object in place. -/
def HForm.submitPrepare (h : Heap) (f : HForm) (method : String) (cfgA : Nat) :
    Heap :=
  let slot := if toLowerStr method = "get" then "params" else "data"
  let cur := getPropH h cfgA slot
  let spreadCur : HObj := if truthyH cur then spreadH h cur else []
  let payload := assignProps (assignProps [] f.data) spreadCur
  let (h1, p) := alloc h payload
  writeProp h1 cfgA slot (.ref p)

/-! ## Association-list lemmas -/

theorem getA_setA_self {α : Type} (t : List (String × α)) (k : String) (v : α) :
    getA (setA t k v) k = some v := by
  induction t with
  | nil => simp [setA, getA]
  | cons kv rest ih =>
      obtain ⟨k0, v0⟩ := kv
      by_cases h : k0 = k <;> simp [setA, getA, h, ih]

theorem getA_setA_ne {α : Type} (t : List (String × α)) {k k' : String} (v : α)
    (h : k' ≠ k) : getA (setA t k' v) k = getA t k := by
  induction t with
  | nil => simp [setA, getA, h]
  | cons kv rest ih =>
      obtain ⟨k0, v0⟩ := kv
      by_cases h0 : k0 = k'
      · subst h0
        simp [setA, getA, h]
      · by_cases h1 : k0 = k <;> simp [setA, getA, h0, h1, ih, Ne.symm h]

theorem fst_setA_of_mem {α : Type} (t : List (String × α)) (k : String) (v : α)
    (h : k ∈ t.map Prod.fst) : (setA t k v).map Prod.fst = t.map Prod.fst := by
  induction t with
  | nil => simp at h
  | cons kv rest ih =>
      obtain ⟨k0, v0⟩ := kv
      by_cases h0 : k0 = k
      · simp [setA, h0]
      · simp only [List.map_cons, List.mem_cons] at h
        rcases h with h | h
        · exact absurd h.symm h0
        · simp [setA, h0, ih h]

theorem setA_eq_append {α : Type} (t : List (String × α)) (k : String) (v : α)
    (h : ¬ k ∈ t.map Prod.fst) : setA t k v = t ++ [(k, v)] := by
  induction t with
  | nil => simp [setA]
  | cons kv rest ih =>
      obtain ⟨k0, v0⟩ := kv
      simp only [List.map_cons, List.mem_cons, not_or] at h
      simp [setA, Ne.symm h.1, ih h.2]

theorem getA_append_right {α : Type} (t s : List (String × α)) (k : String)
    (h : ¬ k ∈ t.map Prod.fst) : getA (t ++ s) k = getA s k := by
  induction t with
  | nil => simp
  | cons kv rest ih =>
      obtain ⟨k0, v0⟩ := kv
      simp only [List.map_cons, List.mem_cons, not_or] at h
      simp [getA, Ne.symm h.1, ih h.2]

theorem getA_assignProps_not_mem {α : Type} (src : List (String × α))
    (k : String) (h : ¬ k ∈ src.map Prod.fst) :
    ∀ t, getA (assignProps t src) k = getA t k := by
  induction src with
  | nil => intro t; rfl
  | cons kv rest ih =>
      intro t
      obtain ⟨k0, v0⟩ := kv
      simp only [List.map_cons, List.mem_cons, not_or] at h
      show getA (assignProps (setA t k0 v0) rest) k = getA t k
      rw [ih h.2, getA_setA_ne _ _ (Ne.symm h.1)]

theorem fst_assignProps {α : Type} (src : List (String × α)) :
    ∀ t, (∀ k ∈ src.map Prod.fst, k ∈ t.map Prod.fst) →
    (assignProps t src).map Prod.fst = t.map Prod.fst := by
  induction src with
  | nil => intro t _; rfl
  | cons kv rest ih =>
      intro t h
      obtain ⟨k0, v0⟩ := kv
      show (assignProps (setA t k0 v0) rest).map Prod.fst = t.map Prod.fst
      rw [ih (setA t k0 v0) ?_, fst_setA_of_mem]
      · exact h k0 (by simp)
      · intro k hk
        rw [fst_setA_of_mem t k0 v0 (h k0 (by simp))]
        exact h k (by simp [hk])

theorem assignProps_disjoint {α : Type} (src : List (String × α)) :
    ∀ t, (∀ k ∈ src.map Prod.fst, ¬ k ∈ t.map Prod.fst) →
    (src.map Prod.fst).Nodup → assignProps t src = t ++ src := by
  induction src with
  | nil => intro t _ _; simp [assignProps]
  | cons kv rest ih =>
      intro t h hnd
      obtain ⟨k0, v0⟩ := kv
      simp only [List.map_cons, List.nodup_cons] at hnd
      show assignProps (setA t k0 v0) rest = t ++ (k0, v0) :: rest
      rw [setA_eq_append t k0 v0 (h k0 (by simp)), ih (t ++ [(k0, v0)]) ?_ hnd.2]
      · simp
      · intro k hk
        simp only [List.map_append, List.mem_append, List.map_cons, not_or]
        refine ⟨h k (by simp [hk]), ?_⟩
        simp only [List.map_cons, List.map_nil, List.mem_singleton]
        intro hkk
        exact hnd.1 (hkk ▸ hk)

theorem foldSet_fresh {α : Type} (g : String → α) :
    ∀ (ks : List String) (t : List (String × α)), ks.Nodup →
    (∀ k ∈ ks, ¬ k ∈ t.map Prod.fst) →
    ks.foldl (fun acc k => setA acc k (g k)) t = t ++ ks.map (fun k => (k, g k)) := by
  intro ks
  induction ks with
  | nil => intro t _ _; simp
  | cons k rest ih =>
      intro t hnd h
      simp only [List.nodup_cons] at hnd
      show rest.foldl (fun acc k => setA acc k (g k)) (setA t k (g k)) = _
      rw [setA_eq_append t k (g k) (h k (by simp)), ih (t ++ [(k, g k)]) hnd.2 ?_]
      · simp
      · intro k' hk'
        simp only [List.map_append, List.mem_append, not_or]
        refine ⟨h k' (by simp [hk']), ?_⟩
        simp only [List.map_cons, List.map_nil, List.mem_singleton]
        intro hkk
        exact hnd.1 (hkk ▸ hk')

theorem map_getD_self (D : List (String × JSON))
    (h : (D.map Prod.fst).Nodup) :
    (D.map Prod.fst).map (fun k => (k, getD D k)) = D := by
  induction D with
  | nil => rfl
  | cons kv rest ih =>
      obtain ⟨k0, v0⟩ := kv
      simp only [List.map_cons, List.nodup_cons] at h ⊢
      congr 1
      · simp [getD, getA]
      · rw [List.map_congr_left (g := fun k => (k, getD rest k)) ?_]
        · exact ih h.2
        · intro k hk
          have hne : k0 ≠ k := by
            intro hkk
            exact h.1 (hkk ▸ hk)
          simp [getD, getA, hne]

theorem data_eq_of (g : Form) (D : List (String × JSON))
    (hk : g.keys = D.map Prod.fst) (hnd : (D.map Prod.fst).Nodup)
    (hv : ∀ k ∈ D.map Prod.fst, getD g.props k = getD D k) :
    g.data = .obj D := by
  unfold Form.data
  rw [hk, foldSet_fresh (fun k => getD g.props k) (D.map Prod.fst) [] hnd (by simp)]
  rw [List.nil_append,
    List.map_congr_left (g := fun k => (k, getD D k)) (fun k hk' => by rw [hv k hk'])]
  exact congrArg JSON.obj (map_getD_self D hnd)

theorem mkForm_props (D : List (String × JSON)) (hnd : (D.map Prod.fst).Nodup)
    (hig : ∀ k ∈ D.map Prod.fst, ¬ k ∈ ignoreKeys) :
    (mkForm (.obj D)).props =
      [("originalData", .obj D), ("busy", .bool false),
       ("successful", .bool false), ("errors", .obj [])] ++ D := by
  have hD : assignProps ([] : List (String × JSON)) D = D := by
    simpa using assignProps_disjoint D [] (by simp) hnd
  have h1 : (mkForm (.obj D)).props =
      assignProps (("originalData", .obj (assignProps [] D)) ::
        [("busy", .bool false), ("successful", .bool false), ("errors", .obj [])]) D := rfl
  rw [h1, hD]
  apply assignProps_disjoint
  · intro k hkD
    have h := hig k hkD
    simp only [ignoreKeys, List.mem_cons, List.not_mem_nil, or_false, not_or] at h
    simp only [List.map_cons, List.map_nil, List.mem_cons, List.not_mem_nil,
      or_false, not_or]
    tauto
  · exact hnd

theorem filter_ignore_append (l : List String)
    (hig : ∀ k ∈ l, ¬ k ∈ ignoreKeys) :
    ((["originalData", "busy", "successful", "errors"] : List String) ++ l).filter
      (fun k => ¬ k ∈ ignoreKeys) = l := by
  rw [List.filter_append]
  have h1 : (["originalData", "busy", "successful", "errors"] : List String).filter
      (fun k => ¬ k ∈ ignoreKeys) = [] := by decide
  have h2 : l.filter (fun k => ¬ k ∈ ignoreKeys) = l := by
    apply List.filter_eq_self.mpr
    intro k hk
    simpa using hig k hk
  rw [h1, h2, List.nil_append]

theorem keys_mkForm (D : List (String × JSON)) (hnd : (D.map Prod.fst).Nodup)
    (hig : ∀ k ∈ D.map Prod.fst, ¬ k ∈ ignoreKeys) :
    (mkForm (.obj D)).keys = D.map Prod.fst := by
  unfold Form.keys
  rw [mkForm_props D hnd hig]
  rw [List.map_append]
  have : ([("originalData", JSON.obj D), ("busy", .bool false),
      ("successful", .bool false), ("errors", .obj [])].map Prod.fst) =
      (["originalData", "busy", "successful", "errors"] : List String) := rfl
  rw [this]
  exact filter_ignore_append (D.map Prod.fst) hig

theorem resetFold (v : JSON) :
    ∀ (ks : List String) (ps r : List (String × JSON)),
    r = ks.foldl
      (fun ps k => setA ps k (deepCopy (getMember (getD ps "originalData") k))) ps →
    ks.Nodup → ¬ "originalData" ∈ ks → getD ps "originalData" = v →
    (∀ k ∈ ks, k ∈ ps.map Prod.fst) →
    r.map Prod.fst = ps.map Prod.fst ∧ getD r "originalData" = v ∧
    (∀ k, ¬ k ∈ ks → getA r k = getA ps k) ∧
    (∀ k ∈ ks, getA r k = some (deepCopy (getMember v k))) := by
  intro ks
  induction ks with
  | nil =>
      intro ps r hr _ _ hod _
      subst hr
      exact ⟨rfl, hod, fun _ _ => rfl, by simp⟩
  | cons k0 rest ih =>
      intro ps r hr hnd hodmem hod hmem
      simp only [List.mem_cons, not_or] at hodmem
      have hne : k0 ≠ "originalData" := fun h => hodmem.1 h.symm
      have hk0mem : k0 ∈ ps.map Prod.fst := hmem k0 (by simp)
      rw [List.foldl_cons] at hr
      set ps1 := setA ps k0 (deepCopy (getMember (getD ps "originalData") k0)) with hps1
      have hod1 : getD ps1 "originalData" = v := by
        rw [hps1]
        unfold getD
        rw [getA_setA_ne _ _ hne]
        exact hod
      have hfst1 : ps1.map Prod.fst = ps.map Prod.fst := fst_setA_of_mem _ _ _ hk0mem
      have hmem1 : ∀ k ∈ rest, k ∈ ps1.map Prod.fst := by
        intro k hk
        rw [hfst1]
        exact hmem k (by simp [hk])
      have hnd' := List.nodup_cons.mp hnd
      obtain ⟨ihfst, ihod, ihout, ihin⟩ :=
        ih ps1 r hr hnd'.2 hodmem.2 hod1 hmem1
      refine ⟨by rw [ihfst, hfst1], ihod, ?_, ?_⟩
      · intro k hk
        simp only [List.mem_cons, not_or] at hk
        rw [ihout k hk.2, hps1, getA_setA_ne _ _ (fun h => hk.1 h.symm)]
      · intro k hk
        rcases List.mem_cons.mp hk with hk | hk
        · subst hk
          rw [ihout k hnd'.1, hps1, getA_setA_self, hod]
        · exact ihin k hk

theorem reset_props_eq (f : Form) :
    f.reset.props = ((f.props.map Prod.fst).filter (fun k => ¬ k ∈ ignoreKeys)).foldl
      (fun ps k => setA ps k (deepCopy (getMember (getD ps "originalData") k)))
      f.props := rfl

theorem reset_data_core (g : Form) (D : List (String × JSON))
    (hnd : (D.map Prod.fst).Nodup)
    (hig : ∀ k ∈ D.map Prod.fst, ¬ k ∈ ignoreKeys)
    (hfst : (g.props.map Prod.fst).filter (fun k => ¬ k ∈ ignoreKeys) = D.map Prod.fst)
    (hod : getD g.props "originalData" = .obj D) :
    g.reset.data = .obj D ∧
    (g.reset.props.map Prod.fst).filter (fun k => ¬ k ∈ ignoreKeys) = D.map Prod.fst ∧
    getD g.reset.props "originalData" = .obj D := by
  have hksnd : ((g.props.map Prod.fst).filter (fun k => ¬ k ∈ ignoreKeys)).Nodup := by
    rw [hfst]; exact hnd
  have hodks : ¬ "originalData" ∈
      (g.props.map Prod.fst).filter (fun k => ¬ k ∈ ignoreKeys) := by
    rw [hfst]
    intro hmem
    exact hig _ hmem (by simp [ignoreKeys])
  have hmem : ∀ k ∈ (g.props.map Prod.fst).filter (fun k => ¬ k ∈ ignoreKeys),
      k ∈ g.props.map Prod.fst := fun k hk => List.mem_of_mem_filter hk
  obtain ⟨hrfst, hrod, _, hrin⟩ :=
    resetFold (.obj D) _ g.props g.reset.props (reset_props_eq g) hksnd hodks hod hmem
  refine ⟨?_, by rw [hrfst, hfst], hrod⟩
  apply data_eq_of _ _ ?_ hnd
  · intro k hkD
    have hkks : k ∈ (g.props.map Prod.fst).filter (fun k => ¬ k ∈ ignoreKeys) := by
      rw [hfst]; exact hkD
    have := hrin k hkks
    unfold getD
    rw [this]
    rfl
  · show (g.reset.props.map Prod.fst).filter (fun k => ¬ k ∈ ignoreKeys) = _
    rw [hrfst, hfst]

theorem getA_eq_none {α : Type} (o : List (String × α)) (k : String)
    (h : ¬ k ∈ o.map Prod.fst) : getA o k = none := by
  induction o with
  | nil => rfl
  | cons kv rest ih =>
      obtain ⟨k0, v0⟩ := kv
      simp only [List.map_cons, List.mem_cons, not_or] at h
      simp [getA, Ne.symm h.1, ih h.2]

theorem not_mem_base4 (od : JSON) (k : String) (h : ¬ k ∈ ignoreKeys) :
    ¬ k ∈ ([("originalData", od), ("busy", JSON.bool false),
      ("successful", JSON.bool false), ("errors", JSON.obj [])].map Prod.fst) := by
  simp only [ignoreKeys, List.mem_cons, List.not_mem_nil, or_false, not_or] at h
  simp only [List.map_cons, List.map_nil, List.mem_cons, List.not_mem_nil,
    or_false, not_or]
  tauto

/-! ## Claim theorems -/

/-- Claim C6 counterexample.  The claim "constructing a container with D and
immediately calling `data()` yields a mapping equal to D (excluding
nothing from D)" is false at D = `{ busy: 1 }`: the reserved control-flag
key is excluded, so `data()` is the empty mapping. -/
theorem C6_counterexample :
    (mkForm (.obj [("busy", .num 1)])).data = .obj [] ∧
    JSON.obj [] ≠ .obj [("busy", .num 1)] :=
  ⟨rfl, by simp⟩

/-- Claim C6, amended.  For every initial data object D with distinct keys,
none of which is a reserved control name (`busy`, `successful`, `errors`,
`originalData`), constructing a container with D and immediately calling
`data()` yields a mapping equal to D. -/
theorem C6_round_trip (D : List (String × JSON))
    (hnd : (D.map Prod.fst).Nodup)
    (hig : ∀ k ∈ D.map Prod.fst, ¬ k ∈ ignoreKeys) :
    (mkForm (.obj D)).data = .obj D := by
  apply data_eq_of _ _ (keys_mkForm D hnd hig) hnd
  intro k hkD
  rw [mkForm_props D hnd hig]
  unfold getD
  rw [getA_append_right _ _ _ (not_mem_base4 (.obj D) k (hig k hkD))]

/-- Claim C6 witness. -/
theorem C6_round_trip_witness :
    (mkForm (.obj [("a", .num 1), ("b", .str "x")])).data
      = .obj [("a", .num 1), ("b", .str "x")] :=
  C6_round_trip _ (by decide) (by decide)

/-- Claim C5 counterexample.  The claim "for every data object D, after
`update(D)`, arbitrary field mutation and `reset()`, `data()` equals D"
is false at D = `{ successful: 1 }` (a reserved control-flag key, excluded
from `data()`), already with no mutation at all. -/
theorem C5_counterexample :
    ((mkForm (.obj [("successful", .num 1)])).assignFields []).reset.data
      = .obj [] ∧
    JSON.obj [] ≠ .obj [("successful", .num 1)] :=
  ⟨rfl, by simp⟩

/-- Claim C5, amended.  For every data object D with distinct, non-reserved
keys: construct with `update(D)`, reassign the bound fields arbitrarily
(any sequence of assignments to existing field keys), then `reset()`;
`data()` equals D, and a second `reset()` is a no-op (`data()` still
equals D). -/
theorem C5_reset_restores (D m : List (String × JSON))
    (hnd : (D.map Prod.fst).Nodup)
    (hig : ∀ k ∈ D.map Prod.fst, ¬ k ∈ ignoreKeys)
    (hm : ∀ k ∈ m.map Prod.fst, k ∈ D.map Prod.fst) :
    ((mkForm (.obj D)).assignFields m).reset.data = .obj D ∧
    ((mkForm (.obj D)).assignFields m).reset.reset.data = .obj D := by
  set g := (mkForm (.obj D)).assignFields m with hg
  have hprops : g.props = assignProps
      ([("originalData", JSON.obj D), ("busy", .bool false),
        ("successful", .bool false), ("errors", .obj [])] ++ D) m := by
    rw [hg]
    show assignProps (mkForm (.obj D)).props m = _
    rw [mkForm_props D hnd hig]
  have hsub : ∀ k ∈ m.map Prod.fst,
      k ∈ (([("originalData", JSON.obj D), ("busy", .bool false),
        ("successful", .bool false), ("errors", .obj [])] ++ D).map Prod.fst) := by
    intro k hk
    rw [List.map_append]
    exact List.mem_append_right _ (hm k hk)
  have hfst : g.props.map Prod.fst =
      (["originalData", "busy", "successful", "errors"] : List String)
        ++ D.map Prod.fst := by
    rw [hprops, fst_assignProps m _ hsub, List.map_append]
    rfl
  have hfil : (g.props.map Prod.fst).filter (fun k => ¬ k ∈ ignoreKeys)
      = D.map Prod.fst := by
    rw [hfst]
    exact filter_ignore_append _ hig
  have hodm : ¬ "originalData" ∈ m.map Prod.fst := by
    intro hmem
    exact hig _ (hm _ hmem) (by simp [ignoreKeys])
  have hod : getD g.props "originalData" = .obj D := by
    rw [hprops]
    unfold getD
    rw [getA_assignProps_not_mem m _ hodm]
    rfl
  obtain ⟨h1, hfil2, hod2⟩ := reset_data_core g D hnd hig hfil hod
  obtain ⟨h2, _, _⟩ := reset_data_core g.reset D hnd hig hfil2 hod2
  exact ⟨h1, h2⟩

/-- Claim C5 witness. -/
theorem C5_reset_restores_witness :
    ((mkForm (.obj [("a", .num 1)])).assignFields [("a", .num 5)]).reset.data
      = .obj [("a", .num 1)] ∧
    ((mkForm (.obj [("a", .num 1)])).assignFields [("a", .num 5)]).reset.reset.data
      = .obj [("a", .num 1)] :=
  C5_reset_restores _ _ (by decide) (by decide) (by decide)

/-- Claim C8.  For every bound key k (present in the form's own keys and not
reserved), `reset()` assigns `deepCopy(originalData[k])`: in particular,
when the baseline is an object lacking k the assigned value is
`undefined`, and when the baseline has k with value w the assigned value
is a (deep-copied) w. -/
theorem C8_reset_per_key (f : Form) (k : String)
    (hnd : (f.props.map Prod.fst).Nodup) (hk : k ∈ f.keys) :
    getA f.reset.props k
      = some (deepCopy (getMember (getD f.props "originalData") k)) ∧
    (∀ o, getD f.props "originalData" = .obj o → ¬ k ∈ o.map Prod.fst →
      getA f.reset.props k = some JSON.undefined) ∧
    (∀ o w, getD f.props "originalData" = .obj o → getA o k = some w →
      getA f.reset.props k = some (deepCopy w)) := by
  have hksnd : ((f.props.map Prod.fst).filter (fun k => ¬ k ∈ ignoreKeys)).Nodup :=
    hnd.filter _
  have hodks : ¬ "originalData" ∈
      (f.props.map Prod.fst).filter (fun k => ¬ k ∈ ignoreKeys) := by
    intro hmem
    have := List.of_mem_filter hmem
    simp [ignoreKeys] at this
  obtain ⟨_, _, _, hrin⟩ := resetFold (getD f.props "originalData") _
    f.props f.reset.props (reset_props_eq f) hksnd hodks rfl
    (fun k hk => List.mem_of_mem_filter hk)
  simp only [Form.keys] at hk
  have hbase := hrin k hk
  refine ⟨hbase, ?_, ?_⟩
  · intro o ho hko
    rw [hbase, ho]
    simp [getMember, getD, getA_eq_none o k hko, deepCopy]
  · intro o w ho hw
    rw [hbase, ho]
    simp [getMember, getD, hw, deepCopy]

/-- Claim C8 witness. -/
theorem C8_reset_per_key_witness :
    getA ((mkForm (.obj [("a", .num 1)])).assignFields [("c", .num 9)]).reset.props "c"
      = some JSON.undefined ∧
    getA ((mkForm (.obj [("a", .num 1)])).assignFields [("c", .num 9)]).reset.props "a"
      = some (deepCopy (.num 1)) :=
  ⟨(C8_reset_per_key _ "c" (by decide) (by decide)).2.1 [("a", .num 1)] rfl (by decide),
   (C8_reset_per_key _ "a" (by decide) (by decide)).2.2 [("a", .num 1)] (.num 1) rfl rfl⟩

/-- Claim C2 counterexample.  The claim's "else if b has an `errors` field →
result is a shallow copy of that field's contents" fails on presence of a
falsy `errors` field: for body `{ errors: null }` the code returns
`{ errors: null }` (the whole-body copy), not the shallow copy of the
`errors` field's contents (which would be `{}`). -/
theorem C2_counterexample :
    extractErrors (.obj [("errors", .null)]) = [("errors", JSON.null)] ∧
    extractErrors (.obj [("errors", .null)])
      ≠ assignProps [] (ownProps (getMember (.obj [("errors", .null)]) "errors")) := by
  refine ⟨rfl, ?_⟩
  have h : assignProps [] (ownProps (getMember (.obj [("errors", .null)]) "errors"))
      = ([] : List (String × JSON)) := rfl
  rw [h, show extractErrors (.obj [("errors", .null)]) = [("errors", JSON.null)] from rfl]
  simp

/-- Claim C2, amended.  The method `extractErrors` follows the ordered fallback with
the first matching branch winning, where the `errors` and `message`
branches are selected by truthiness of the field (not mere presence):
if the body is falsy or not of object type the result is
`{ error: <default message> }`; else if the body's `errors` field is
truthy the result is a shallow copy of its contents; else if the body's
`message` field is truthy the result is `{ error: <that message> }`;
else the result is a shallow copy of the whole body. -/
theorem C2_extract_ordered_fallback (b : JSON) :
    (¬ truthy b = true ∨ ¬ typeofIsObject b = true →
      extractErrors b = [("error", .str errorMessage)]) ∧
    (truthy b = true → typeofIsObject b = true →
      truthy (getMember b "errors") = true →
      extractErrors b = assignProps [] (ownProps (getMember b "errors"))) ∧
    (truthy b = true → typeofIsObject b = true →
      ¬ truthy (getMember b "errors") = true →
      truthy (getMember b "message") = true →
      extractErrors b = [("error", getMember b "message")]) ∧
    (truthy b = true → typeofIsObject b = true →
      ¬ truthy (getMember b "errors") = true →
      ¬ truthy (getMember b "message") = true →
      extractErrors b = assignProps [] (ownProps b)) := by
  unfold extractErrors
  refine ⟨?_, ?_, ?_, ?_⟩ <;> intros <;> simp_all

/-- Claim C2 witness. -/
theorem C2_extract_ordered_fallback_witness :
    extractErrors (.obj [("errors", .obj [("email", .str "taken")])])
      = [("email", JSON.str "taken")] :=
  ((C2_extract_ordered_fallback
      (.obj [("errors", .obj [("email", .str "taken")])])).2.1 rfl rfl rfl).trans rfl

/-- Claim C10.  Error-branch selection tests truthiness, not key presence:
for every structured body whose `errors` property exists but is falsy,
the errors branch is skipped and extraction falls through to the
`message` branch or to the shallow copy of the whole body. -/
theorem C10_falsy_errors_skipped (fs : List (String × JSON))
    (_hpres : (getA fs "errors").isSome = true)
    (hfalsy : ¬ truthy (getD fs "errors") = true) :
    extractErrors (.obj fs) =
      (if truthy (getMember (.obj fs) "message") then
        [("error", getMember (.obj fs) "message")]
      else assignProps [] (ownProps (.obj fs))) := by
  have h3 : getMember (.obj fs) "errors" = getD fs "errors" := rfl
  have h1 : ¬ (¬ truthy (JSON.obj fs) = true ∨ ¬ typeofIsObject (JSON.obj fs) = true) := by
    simp [truthy, typeofIsObject]
  have h2 : ¬ truthy (getMember (JSON.obj fs) "errors") = true := by
    rw [h3]; exact hfalsy
  unfold extractErrors
  rw [if_neg h1, if_neg h2]

/-- Claim C10 witness. -/
theorem C10_falsy_errors_skipped_witness :
    extractErrors (.obj [("errors", .null), ("message", .str "m")])
      = [("error", JSON.str "m")] :=
  (C10_falsy_errors_skipped [("errors", .null), ("message", .str "m")]
    rfl (by decide)).trans rfl

theorem getA_assignProps_override {α : Type} (b : List (String × α)) :
    ∀ (a : List (String × α)) (k : String), (b.map Prod.fst).Nodup →
    getA (assignProps a b) k = (getA b k).or (getA a k) := by
  induction b with
  | nil => intro a k _; rfl
  | cons kv rest ih =>
      intro a k hnd
      obtain ⟨k0, v0⟩ := kv
      simp only [List.map_cons, List.nodup_cons] at hnd
      show getA (assignProps (setA a k0 v0) rest) k = _
      rw [ih (setA a k0 v0) k hnd.2]
      by_cases hk : k0 = k
      · subst hk
        rw [getA_eq_none rest k0 hnd.1, getA_setA_self]
        simp [getA]
      · rw [getA_setA_ne _ _ hk]
        simp [getA, hk]

/-- Claim C3.  On every transport failure during submit: `busy` is false and
`successful` is false afterwards; when the failure carries a response,
the error mapping is set to the extraction of its body; when it carries
no response, `handleErrors` leaves the error mapping untouched (no
generic error is synthesized); and the promise settles by rejecting with
the original failure. -/
theorem C3_failure_handling (f : Form) (method : String)
    (cfg : List (String × JSON)) (e : AxiosErr) (g : Form) :
    getD (f.submitStep method cfg (.failure e)).1.props "busy" = .bool false ∧
    getD (f.submitStep method cfg (.failure e)).1.props "successful" = .bool false ∧
    (∀ r, e.response = some r →
      getD (f.submitStep method cfg (.failure e)).1.props "errors"
        = .obj (extractErrors r.data)) ∧
    (e.response = none →
      getD (g.handleErrors e).props "errors" = getD g.props "errors") ∧
    (f.submitStep method cfg (.failure e)).2.2 = .error e := by
  have hstep : (f.submitStep method cfg (.failure e)).1
      = f.startProcessing.handleErrors e := rfl
  have hsucc : getA f.startProcessing.props "successful" = some (.bool false) := by
    unfold Form.startProcessing
    exact getA_setA_self _ _ _
  refine ⟨?_, ?_, ?_, ?_, rfl⟩
  · rw [hstep]
    unfold Form.handleErrors
    cases hr : e.response with
    | none =>
        unfold getD
        rw [getA_setA_self]
        rfl
    | some r =>
        unfold getD
        rw [getA_setA_ne _ _ (by decide), getA_setA_self]
        rfl
  · rw [hstep]
    unfold Form.handleErrors
    cases hr : e.response with
    | none =>
        unfold getD
        rw [getA_setA_ne _ _ (by decide), hsucc]
        rfl
    | some r =>
        unfold getD
        rw [getA_setA_ne _ _ (by decide), getA_setA_ne _ _ (by decide), hsucc]
        rfl
  · intro r hr
    rw [hstep]
    unfold Form.handleErrors
    rw [hr]
    unfold getD
    rw [getA_setA_self]
    rfl
  · intro hr
    unfold Form.handleErrors
    rw [hr]
    unfold getD
    rw [getA_setA_ne _ _ (by decide)]

/-- Claim C3 witness. -/
theorem C3_failure_handling_witness :
    getD ((mkForm (.obj [("a", .num 1)])).submitStep "post" []
        (.failure ⟨some ⟨.obj [("errors", .obj [("name", .str "required")])]⟩⟩)).1.props
      "busy" = .bool false ∧
    getD ((mkForm (.obj [("a", .num 1)])).submitStep "post" []
        (.failure ⟨some ⟨.obj [("errors", .obj [("name", .str "required")])]⟩⟩)).1.props
      "errors" = .obj [("name", JSON.str "required")] ∧
    getD (initForm.handleErrors ⟨none⟩).props "errors" = getD initForm.props "errors" ∧
    ((mkForm (.obj [("a", .num 1)])).submitStep "post" [] (.failure ⟨none⟩)).2.2
      = .error ⟨none⟩ :=
  ⟨(C3_failure_handling (mkForm (.obj [("a", .num 1)])) "post" []
      ⟨some ⟨.obj [("errors", .obj [("name", .str "required")])]⟩⟩ initForm).1,
   ((C3_failure_handling (mkForm (.obj [("a", .num 1)])) "post" []
      ⟨some ⟨.obj [("errors", .obj [("name", .str "required")])]⟩⟩ initForm).2.2.1
      ⟨.obj [("errors", .obj [("name", .str "required")])]⟩ rfl).trans rfl,
   (C3_failure_handling (mkForm (.obj [("a", .num 1)])) "post" []
      ⟨none⟩ initForm).2.2.2.1 rfl,
   (C3_failure_handling (mkForm (.obj [("a", .num 1)])) "post" []
      ⟨none⟩ initForm).2.2.2.2⟩

/-- Claim C4.  The outgoing payload is `data()` overlaid with the
data/params already in the config (config values take precedence for the
same keys); a case-insensitive `get` places it in the query-parameter
slot (`params`) leaving every other config entry unchanged, and every
other method places it in the body slot (`data`) likewise. -/
theorem C4_payload_routing (f : Form) (method : String)
    (cfg : List (String × JSON)) (o : Outcome) :
    (toLowerStr method = "get" →
      getD (f.submitStep method cfg o).2.1 "params"
        = .obj (assignProps (assignProps [] (ownProps f.startProcessing.data))
            (ownProps (orJS (getD cfg "params") (.obj [])))) ∧
      (∀ k, k ≠ "params" → getA (f.submitStep method cfg o).2.1 k = getA cfg k) ∧
      (((ownProps (orJS (getD cfg "params") (.obj []))).map Prod.fst).Nodup →
        ∀ k, getA (assignProps (assignProps [] (ownProps f.startProcessing.data))
            (ownProps (orJS (getD cfg "params") (.obj [])))) k
          = ((getA (ownProps (orJS (getD cfg "params") (.obj []))) k).or
             (getA (assignProps [] (ownProps f.startProcessing.data)) k)))) ∧
    (¬ toLowerStr method = "get" →
      getD (f.submitStep method cfg o).2.1 "data"
        = .obj (assignProps (assignProps [] (ownProps f.startProcessing.data))
            (ownProps (orJS (getD cfg "data") (.obj [])))) ∧
      (∀ k, k ≠ "data" → getA (f.submitStep method cfg o).2.1 k = getA cfg k) ∧
      (((ownProps (orJS (getD cfg "data") (.obj []))).map Prod.fst).Nodup →
        ∀ k, getA (assignProps (assignProps [] (ownProps f.startProcessing.data))
            (ownProps (orJS (getD cfg "data") (.obj [])))) k
          = ((getA (ownProps (orJS (getD cfg "data") (.obj []))) k).or
             (getA (assignProps [] (ownProps f.startProcessing.data)) k)))) := by
  have hc : (f.submitStep method cfg o).2.1
      = (if toLowerStr method = "get" then
          setA cfg "params" (.obj (assignProps
            (assignProps [] (ownProps f.startProcessing.data))
            (ownProps (orJS (getD cfg "params") (.obj [])))))
        else
          setA cfg "data" (.obj (assignProps
            (assignProps [] (ownProps f.startProcessing.data))
            (ownProps (orJS (getD cfg "data") (.obj [])))))) := by
    cases o <;> rfl
  constructor
  · intro hget
    rw [hc, if_pos hget]
    refine ⟨?_, ?_, ?_⟩
    · unfold getD
      rw [getA_setA_self]
      rfl
    · intro k hk
      rw [getA_setA_ne _ _ (fun h => hk h.symm)]
    · intro hnd k
      exact getA_assignProps_override _ _ k hnd
  · intro hget
    rw [hc, if_neg hget]
    refine ⟨?_, ?_, ?_⟩
    · unfold getD
      rw [getA_setA_self]
      rfl
    · intro k hk
      rw [getA_setA_ne _ _ (fun h => hk h.symm)]
    · intro hnd k
      exact getA_assignProps_override _ _ k hnd

/-- Claim C4 witness. -/
theorem C4_payload_routing_witness :
    getD ((mkForm (.obj [("a", .num 1)])).submitStep "GET"
        [("params", .obj [("a", .num 2), ("b", .num 3)])] (.success ⟨.null⟩)).2.1
      "params" = .obj [("a", .num 2), ("b", .num 3)] ∧
    getD ((mkForm (.obj [("a", .num 1)])).submitStep "post" []
        (.success ⟨.null⟩)).2.1 "data" = .obj [("a", .num 1)] :=
  ⟨((C4_payload_routing (mkForm (.obj [("a", .num 1)])) "GET"
      [("params", .obj [("a", .num 2), ("b", .num 3)])] (.success ⟨.null⟩)).1
      (by decide)).1.trans rfl,
   ((C4_payload_routing (mkForm (.obj [("a", .num 1)])) "post" []
      (.success ⟨.null⟩)).2 (by decide)).1.trans rfl⟩

theorem splitFirst_eq_none (pat : List Char) :
    ∀ (s : List Char), ¬ pat <:+: s → splitFirst pat s = none := by
  intro s
  induction s with
  | nil =>
      intro h
      have hne : ¬ pat.isEmpty = true := by
        cases pat with
        | nil => exact absurd List.nil_infix h
        | cons c t => simp [List.isEmpty]
      unfold splitFirst
      simp [hne]
  | cons c rest ih =>
      intro h
      have hp : ¬ pat.isPrefixOf (c :: rest) = true := by
        intro hb
        exact h (List.isPrefixOf_iff_prefix.mp hb).isInfix
      unfold splitFirst
      rw [if_neg hp, ih (fun hi => h (List.infix_cons hi))]
      rfl

/-- Claim C7 counterexample.  The claim "every `{param}` placeholder is
replaced with the corresponding value" is false: JavaScript
`String.prototype.replace` with a string pattern replaces only the first
occurrence, so resolving the template `/a/{id}/{id}` with `{ id: "5" }`
yields `/a/5/{id}`, not `/a/5/5`. -/
theorem C7_counterexample :
    route [("r", "/a/{id}/{id}")] "r" (.obj [("id", .str "5")])
      = some "/a/5/{id}" ∧
    (some "/a/5/{id}" : Option String) ≠ some "/a/5/5" :=
  ⟨rfl, by decide⟩

/-- Claim C7, amended.  Route resolution: a known symbolic name is
substituted with the URI-decoded registered template, an unknown url
passes through unchanged; then for each parameter key (in order) only the
*first* occurrence of its `{param}` placeholder is replaced with the
parameter's value; a placeholder whose pattern does not occur — in
particular one without a corresponding parameter — is left as literal
text and no error is raised. -/
theorem C7_route_resolution (routes : List (String × String)) (name : String)
    (fs : List (String × JSON)) (t u : String) :
    (getA routes name = none →
      route routes name (.obj fs)
        = some ((fs.map Prod.fst).foldl
            (fun url k => replaceJS url ("\x7b" ++ k ++ "\x7d") (jsToString (getD fs k)))
            name)) ∧
    (getA routes name = some t → decodeURI t = some u →
      route routes name (.obj fs)
        = some ((fs.map Prod.fst).foldl
            (fun url k => replaceJS url ("\x7b" ++ k ++ "\x7d") (jsToString (getD fs k)))
            u)) ∧
    (∀ (s pat repl : String), ¬ pat.data <:+: s.data → replaceJS s pat repl = s) := by
  refine ⟨?_, ?_, ?_⟩
  · intro h
    simp only [route, h, typeofIsObject]
    rfl
  · intro h1 h2
    simp only [route, h1, h2, typeofIsObject]
    rfl
  · intro s pat repl h
    unfold replaceJS
    rw [splitFirst_eq_none pat.data s.data h]

/-- Claim C7 witness. -/
theorem C7_route_resolution_witness :
    route [("r", "/u/{id}")] "r" (.obj [("id", .str "7")]) = some "/u/7" ∧
    route [] "unknown/url" (.obj []) = some "unknown/url" ∧
    replaceJS "/u/{id}" "{missing}" "9" = "/u/{id}" :=
  ⟨((C7_route_resolution [("r", "/u/{id}")] "r" [("id", .str "7")]
      "/u/{id}" "/u/{id}").2.1 rfl rfl).trans rfl,
   (C7_route_resolution [] "unknown/url" [] "" "").1 rfl,
   (C7_route_resolution [] "" [] "" "").2.2 "/u/{id}" "{missing}" "9" (by decide)⟩

theorem listGetD_set_ne {α : Type} (x d : α) :
    ∀ (l : List α) (a b : Nat), b ≠ a → (l.set a x).getD b d = l.getD b d := by
  intro l
  induction l with
  | nil => intro a b _; rfl
  | cons y t ih =>
      intro a b hne
      cases a with
      | zero =>
          cases b with
          | zero => exact absurd rfl hne
          | succ m => rfl
      | succ n =>
          cases b with
          | zero => rfl
          | succ m => exact ih n m (fun hm => hne (by rw [hm]))

theorem listGetD_set_self {α : Type} (x d : α) :
    ∀ (l : List α) (a : Nat), a < l.length → (l.set a x).getD a d = x := by
  intro l
  induction l with
  | nil => intro a ha; exact absurd ha (by simp)
  | cons y t ih =>
      intro a ha
      cases a with
      | zero => rfl
      | succ n => exact ih n (by simpa using ha)

theorem listGetD_append_lt {α : Type} (d o : α) :
    ∀ (l : List α) (a : Nat), a < l.length → (l ++ [o]).getD a d = l.getD a d := by
  intro l
  induction l with
  | nil => intro a ha; exact absurd ha (by simp)
  | cons y t ih =>
      intro a ha
      cases a with
      | zero => rfl
      | succ n => exact ih n (by simpa using ha)

theorem listGetD_append_len {α : Type} (d o : α) :
    ∀ (l : List α), (l ++ [o]).getD l.length d = o := by
  intro l
  induction l with
  | nil => rfl
  | cons y t ih => exact ih

theorem getCell_writeProp_ne (h : Heap) (a b : Nat) (k : String) (v : HVal)
    (hne : b ≠ a) : getCell (writeProp h a k v) b = getCell h b :=
  listGetD_set_ne _ _ h a b hne

theorem getCell_writeProp_self (h : Heap) (a : Nat) (k : String) (v : HVal)
    (ha : a < h.length) : getCell (writeProp h a k v) a = setA (getCell h a) k v := by
  unfold writeProp getCell
  exact listGetD_set_self _ _ h a ha

theorem getPropH_writeProp_self (h : Heap) (a : Nat) (k : String) (v : HVal)
    (ha : a < h.length) : getPropH (writeProp h a k v) a k = v := by
  unfold getPropH
  rw [getCell_writeProp_self _ _ _ _ ha, getA_setA_self]
  rfl

theorem mem_reachFold (h : Heap) (n : Nat) :
    ∀ (o : HObj) (kv : String × HVal) (x : Nat), kv ∈ o → x ∈ reachV n h kv.2 →
    x ∈ o.foldr (fun kv acc => reachV n h kv.2 ++ acc) [] := by
  intro o
  induction o with
  | nil => intro kv x hkv _; exact absurd hkv (by simp)
  | cons p rest ih =>
      intro kv x hkv hx
      rcases List.mem_cons.mp hkv with hkv | hkv
      · subst hkv
        exact List.mem_append_left _ hx
      · exact List.mem_append_right _ (ih kv x hkv hx)

theorem deepReadV_writeProp_of_not_reach (k : String) (w : HVal) :
    ∀ (fuel : Nat) (h : Heap) (a : Nat) (v : HVal), ¬ a ∈ reachV fuel h v →
    deepReadV fuel (writeProp h a k w) v = deepReadV fuel h v := by
  intro fuel
  induction fuel with
  | zero => intro h a v _; rfl
  | succ n ih =>
      intro h a v hna
      cases v with
      | null => rfl
      | undefined => rfl
      | bool b => rfl
      | num m => rfl
      | str s => rfl
      | ref b =>
          have hba : b ≠ a := by
            intro hb
            exact hna (by rw [hb] at *; simp [reachV])
          rw [show deepReadV (n + 1) (writeProp h a k w) (.ref b)
              = .obj ((getCell (writeProp h a k w) b).map
                  (fun kv => (kv.1, deepReadV n (writeProp h a k w) kv.2))) from rfl,
            show deepReadV (n + 1) h (.ref b)
              = .obj ((getCell h b).map (fun kv => (kv.1, deepReadV n h kv.2))) from rfl,
            getCell_writeProp_ne h a b k w hba]
          congr 1
          apply List.map_congr_left
          intro kv hkv
          have hnr : ¬ a ∈ reachV n h kv.2 := by
            intro hmem
            exact hna (List.mem_cons_of_mem b (mem_reachFold h n (getCell h b) kv a hkv hmem))
          rw [ih h a kv.2 hnr]

/-- Claim C1 counterexample.  The method `data()` does not deep-copy: its returned
mapping shares the field value references, so mutating a nested structure
inside a returned value changes the container's current field value.
Concretely: construct a form from `{ a: {x: 1} }` (the inner object at
heap address 0); `data()` returns `{ a: <ref 0> }`; writing `x = 2`
through that shared reference makes the container's field `a` read
`{x: 2}` where it read `{x: 1}` before. -/
theorem C1_counterexample :
    (HForm.update 10 [[("x", HVal.num 1)]] ⟨[], []⟩ [("a", HVal.ref 0)]).2.data
      = [("a", HVal.ref 0)] ∧
    deepReadV 2 (HForm.update 10 [[("x", HVal.num 1)]] ⟨[], []⟩
        [("a", HVal.ref 0)]).1 (HVal.ref 0) = .obj [("x", .num 1)] ∧
    deepReadV 2 (writeProp (HForm.update 10 [[("x", HVal.num 1)]] ⟨[], []⟩
        [("a", HVal.ref 0)]).1 0 "x" (.num 2)) (HVal.ref 0) = .obj [("x", .num 2)] ∧
    JSON.obj [("x", .num 1)] ≠ .obj [("x", .num 2)] :=
  ⟨rfl, rfl, rfl, by simp⟩

theorem deepReadProps_writeProp_of_not_reach (ps : HObj) (fuel : Nat) (h : Heap)
    (a : Nat) (k : String) (w : HVal) (ha : ¬ a ∈ reachProps fuel h ps) :
    deepReadProps fuel (writeProp h a k w) ps = deepReadProps fuel h ps := by
  unfold deepReadProps
  apply List.map_congr_left
  intro kv hkv
  have hnr : ¬ a ∈ reachV fuel h kv.2 := by
    intro hmem
    exact ha (mem_reachFold h fuel ps kv a hkv hmem)
  rw [deepReadV_writeProp_of_not_reach k w fuel h a kv.2 hnr]

theorem getCell_append_lt (h : Heap) (o : HObj) (b : Nat) (hb : b < h.length) :
    getCell (h ++ [o]) b = getCell h b := by
  unfold getCell
  exact listGetD_append_lt _ _ h b hb

theorem foldr_reach_congr (g1 g2 : HVal → List Nat) :
    ∀ (o : HObj), (∀ kv ∈ o, g1 kv.2 = g2 kv.2) →
    o.foldr (fun kv acc => g1 kv.2 ++ acc) []
      = o.foldr (fun kv acc => g2 kv.2 ++ acc) [] := by
  intro o
  induction o with
  | nil => intro _; rfl
  | cons p rest ih =>
      intro hg
      simp only [List.foldr_cons]
      rw [hg p (by simp), ih (fun kv hkv => hg kv (by simp [hkv]))]

theorem reachV_append_of_bounded (o : HObj) :
    ∀ (fuel : Nat) (h : Heap) (v : HVal),
    (∀ a ∈ reachV fuel h v, a < h.length) →
    reachV fuel (h ++ [o]) v = reachV fuel h v := by
  intro fuel
  induction fuel with
  | zero => intro h v _; rfl
  | succ n ih =>
      intro h v hb
      cases v with
      | null => rfl
      | undefined => rfl
      | bool b => rfl
      | num m => rfl
      | str s => rfl
      | ref b =>
          have hblt : b < h.length := hb b (by simp [reachV])
          rw [show reachV (n + 1) (h ++ [o]) (.ref b)
              = b :: (getCell (h ++ [o]) b).foldr
                  (fun kv acc => reachV n (h ++ [o]) kv.2 ++ acc) [] from rfl,
            show reachV (n + 1) h (.ref b)
              = b :: (getCell h b).foldr (fun kv acc => reachV n h kv.2 ++ acc) [] from rfl,
            getCell_append_lt h o b hblt]
          congr 1
          apply foldr_reach_congr
          intro kv hkv
          apply ih h kv.2
          intro a ha
          exact hb a (List.mem_cons_of_mem b (mem_reachFold h n (getCell h b) kv a hkv ha))

theorem deepReadV_append_of_bounded (o : HObj) :
    ∀ (fuel : Nat) (h : Heap) (v : HVal),
    (∀ a ∈ reachV fuel h v, a < h.length) →
    deepReadV fuel (h ++ [o]) v = deepReadV fuel h v := by
  intro fuel
  induction fuel with
  | zero => intro h v _; rfl
  | succ n ih =>
      intro h v hb
      cases v with
      | null => rfl
      | undefined => rfl
      | bool b => rfl
      | num m => rfl
      | str s => rfl
      | ref b =>
          have hblt : b < h.length := hb b (by simp [reachV])
          rw [show deepReadV (n + 1) (h ++ [o]) (.ref b)
              = .obj ((getCell (h ++ [o]) b).map
                  (fun kv => (kv.1, deepReadV n (h ++ [o]) kv.2))) from rfl,
            show deepReadV (n + 1) h (.ref b)
              = .obj ((getCell h b).map (fun kv => (kv.1, deepReadV n h kv.2))) from rfl,
            getCell_append_lt h o b hblt]
          congr 1
          apply List.map_congr_left
          intro kv hkv
          have heq : deepReadV n (h ++ [o]) kv.2 = deepReadV n h kv.2 := by
            apply ih h kv.2
            intro a ha
            exact hb a (List.mem_cons_of_mem b (mem_reachFold h n (getCell h b) kv a hkv ha))
          rw [heq]

theorem reachProps_append_of_bounded (o ps : HObj) (fuel : Nat) (h : Heap)
    (hb : ∀ a ∈ reachProps fuel h ps, a < h.length) :
    reachProps fuel (h ++ [o]) ps = reachProps fuel h ps := by
  unfold reachProps
  apply foldr_reach_congr
  intro kv hkv
  apply reachV_append_of_bounded o fuel h kv.2
  intro a ha
  exact hb a (mem_reachFold h fuel ps kv a hkv ha)

theorem deepReadProps_append_of_bounded (o ps : HObj) (fuel : Nat) (h : Heap)
    (hb : ∀ a ∈ reachProps fuel h ps, a < h.length) :
    deepReadProps fuel (h ++ [o]) ps = deepReadProps fuel h ps := by
  unfold deepReadProps
  apply List.map_congr_left
  intro kv hkv
  have heq : deepReadV fuel (h ++ [o]) kv.2 = deepReadV fuel h kv.2 := by
    apply deepReadV_append_of_bounded o fuel h kv.2
    intro a ha
    exact hb a (mem_reachFold h fuel ps kv a hkv ha)
  rw [heq]

/-- Claim C1, amended.  `data()` allocates a fresh top-level mapping
carrying the very same field value references.  Mutating that returned
mapping object itself (its top level) changes neither the container's
current field values nor its baseline; mutating a value reachable from
the returned mapping cannot change the baseline snapshot as long as the
baseline's deep-copied storage is disjoint from it (which is what
`deepCopy` at `update` time establishes).  Such nested mutation does,
however, change the container's current field values (see the
counterexample): the copy boundary of `data()` is shallow, not deep.
The boundedness hypotheses say the form's reachable storage lies inside
the current heap, so the allocated address is fresh. -/
theorem C1_data_isolation (h : Heap) (f : HForm) (fuel : Nat) (k : String)
    (w : HVal)
    (hbf : ∀ b ∈ reachProps fuel h f.fields, b < h.length)
    (hbo : ∀ b ∈ reachProps fuel h f.originalData, b < h.length)
    (a : Nat)
    (_hshared : a ∈ reachProps fuel h f.data)
    (hdisj : ¬ a ∈ reachProps fuel h f.originalData) :
    (f.dataCall h).2 = h.length ∧
    getCell (f.dataCall h).1 (f.dataCall h).2 = f.data ∧
    deepReadProps fuel (writeProp (f.dataCall h).1 (f.dataCall h).2 k w) f.fields
      = deepReadProps fuel h f.fields ∧
    deepReadProps fuel (writeProp (f.dataCall h).1 (f.dataCall h).2 k w) f.originalData
      = deepReadProps fuel h f.originalData ∧
    deepReadProps fuel (writeProp h a k w) f.originalData
      = deepReadProps fuel h f.originalData := by
  have hp : (f.dataCall h).2 = h.length := rfl
  have hh1 : (f.dataCall h).1 = h ++ [f.data] := rfl
  have hcell : getCell (f.dataCall h).1 (f.dataCall h).2 = f.data := by
    rw [hp, hh1]
    exact listGetD_append_len _ _ h
  refine ⟨hp, hcell, ?_, ?_, ?_⟩
  · rw [hp, hh1]
    have hreach : reachProps fuel (h ++ [f.data]) f.fields
        = reachProps fuel h f.fields :=
      reachProps_append_of_bounded _ _ fuel h hbf
    have hfresh : ¬ h.length ∈ reachProps fuel (h ++ [f.data]) f.fields := by
      rw [hreach]
      intro hmem
      exact lt_irrefl _ (hbf _ hmem)
    rw [deepReadProps_writeProp_of_not_reach f.fields fuel (h ++ [f.data])
      h.length k w hfresh]
    exact deepReadProps_append_of_bounded f.data f.fields fuel h hbf
  · rw [hp, hh1]
    have hreach : reachProps fuel (h ++ [f.data]) f.originalData
        = reachProps fuel h f.originalData :=
      reachProps_append_of_bounded _ _ fuel h hbo
    have hfresh : ¬ h.length ∈ reachProps fuel (h ++ [f.data]) f.originalData := by
      rw [hreach]
      intro hmem
      exact lt_irrefl _ (hbo _ hmem)
    rw [deepReadProps_writeProp_of_not_reach f.originalData fuel (h ++ [f.data])
      h.length k w hfresh]
    exact deepReadProps_append_of_bounded f.data f.originalData fuel h hbo
  · exact deepReadProps_writeProp_of_not_reach f.originalData fuel h a k w hdisj

/-- Claim C1 witness. -/
theorem C1_data_isolation_witness :
    ((HForm.update 10 [[("x", HVal.num 1)]] ⟨[], []⟩ [("a", HVal.ref 0)]).2.dataCall
        (HForm.update 10 [[("x", HVal.num 1)]] ⟨[], []⟩ [("a", HVal.ref 0)]).1).2
      = (HForm.update 10 [[("x", HVal.num 1)]] ⟨[], []⟩ [("a", HVal.ref 0)]).1.length ∧
    getCell ((HForm.update 10 [[("x", HVal.num 1)]] ⟨[], []⟩ [("a", HVal.ref 0)]).2.dataCall
        (HForm.update 10 [[("x", HVal.num 1)]] ⟨[], []⟩ [("a", HVal.ref 0)]).1).1
      ((HForm.update 10 [[("x", HVal.num 1)]] ⟨[], []⟩ [("a", HVal.ref 0)]).2.dataCall
        (HForm.update 10 [[("x", HVal.num 1)]] ⟨[], []⟩ [("a", HVal.ref 0)]).1).2
      = (HForm.update 10 [[("x", HVal.num 1)]] ⟨[], []⟩ [("a", HVal.ref 0)]).2.data ∧
    deepReadProps 2 (writeProp ((HForm.update 10 [[("x", HVal.num 1)]] ⟨[], []⟩
          [("a", HVal.ref 0)]).2.dataCall
        (HForm.update 10 [[("x", HVal.num 1)]] ⟨[], []⟩ [("a", HVal.ref 0)]).1).1
      ((HForm.update 10 [[("x", HVal.num 1)]] ⟨[], []⟩ [("a", HVal.ref 0)]).2.dataCall
        (HForm.update 10 [[("x", HVal.num 1)]] ⟨[], []⟩ [("a", HVal.ref 0)]).1).2
      "b" (.num 7))
      (HForm.update 10 [[("x", HVal.num 1)]] ⟨[], []⟩ [("a", HVal.ref 0)]).2.fields
      = deepReadProps 2 (HForm.update 10 [[("x", HVal.num 1)]] ⟨[], []⟩
          [("a", HVal.ref 0)]).1
        (HForm.update 10 [[("x", HVal.num 1)]] ⟨[], []⟩ [("a", HVal.ref 0)]).2.fields ∧
    deepReadProps 2 (writeProp ((HForm.update 10 [[("x", HVal.num 1)]] ⟨[], []⟩
          [("a", HVal.ref 0)]).2.dataCall
        (HForm.update 10 [[("x", HVal.num 1)]] ⟨[], []⟩ [("a", HVal.ref 0)]).1).1
      ((HForm.update 10 [[("x", HVal.num 1)]] ⟨[], []⟩ [("a", HVal.ref 0)]).2.dataCall
        (HForm.update 10 [[("x", HVal.num 1)]] ⟨[], []⟩ [("a", HVal.ref 0)]).1).2
      "b" (.num 7))
      (HForm.update 10 [[("x", HVal.num 1)]] ⟨[], []⟩ [("a", HVal.ref 0)]).2.originalData
      = deepReadProps 2 (HForm.update 10 [[("x", HVal.num 1)]] ⟨[], []⟩
          [("a", HVal.ref 0)]).1
        (HForm.update 10 [[("x", HVal.num 1)]] ⟨[], []⟩
          [("a", HVal.ref 0)]).2.originalData ∧
    deepReadProps 2 (writeProp (HForm.update 10 [[("x", HVal.num 1)]] ⟨[], []⟩
          [("a", HVal.ref 0)]).1 0 "b" (.num 7))
      (HForm.update 10 [[("x", HVal.num 1)]] ⟨[], []⟩ [("a", HVal.ref 0)]).2.originalData
      = deepReadProps 2 (HForm.update 10 [[("x", HVal.num 1)]] ⟨[], []⟩
          [("a", HVal.ref 0)]).1
        (HForm.update 10 [[("x", HVal.num 1)]] ⟨[], []⟩
          [("a", HVal.ref 0)]).2.originalData :=
  C1_data_isolation
    (HForm.update 10 [[("x", HVal.num 1)]] ⟨[], []⟩ [("a", HVal.ref 0)]).1
    (HForm.update 10 [[("x", HVal.num 1)]] ⟨[], []⟩ [("a", HVal.ref 0)]).2
    2 "b" (.num 7) (by decide) (by decide) 0 (by decide) (by decide)

/-- Claim C9.  The method `submit` mutates the caller-supplied config object in place:
the merged payload is allocated fresh and a reference to it is written
into the config object's `params` (for a case-insensitive `get`) or
`data` (otherwise) property, so the caller's config object observably
changes. -/
theorem C9_config_mutated_in_place (h : Heap) (f : HForm) (method : String)
    (cfgA : Nat) (slot : String)
    (hslot : slot = if toLowerStr method = "get" then "params" else "data")
    (hcfg : cfgA < h.length)
    (hwf : ∀ b, getPropH h cfgA slot = .ref b → b < h.length) :
    getPropH (f.submitPrepare h method cfgA) cfgA slot = .ref h.length ∧
    getCell (f.submitPrepare h method cfgA) h.length
      = assignProps (assignProps [] f.data)
          (if truthyH (getPropH h cfgA slot) = true
           then spreadH h (getPropH h cfgA slot) else []) ∧
    getPropH (f.submitPrepare h method cfgA) cfgA slot ≠ getPropH h cfgA slot := by
  subst hslot
  have hprep : f.submitPrepare h method cfgA
      = writeProp (h ++ [assignProps (assignProps [] f.data)
          (if truthyH (getPropH h cfgA
              (if toLowerStr method = "get" then "params" else "data")) = true
           then spreadH h (getPropH h cfgA
              (if toLowerStr method = "get" then "params" else "data")) else [])])
        cfgA (if toLowerStr method = "get" then "params" else "data")
        (.ref h.length) := by
    unfold HForm.submitPrepare
    by_cases hm : toLowerStr method = "get" <;> simp [hm, alloc]
  have hlen : cfgA < (h ++ [assignProps (assignProps [] f.data)
      (if truthyH (getPropH h cfgA
          (if toLowerStr method = "get" then "params" else "data")) = true
       then spreadH h (getPropH h cfgA
          (if toLowerStr method = "get" then "params" else "data")) else [])]).length := by
    simp only [List.length_append, List.length_cons, List.length_nil]
    omega
  have h1 : getPropH (f.submitPrepare h method cfgA) cfgA
      (if toLowerStr method = "get" then "params" else "data") = .ref h.length := by
    rw [hprep]
    exact getPropH_writeProp_self _ _ _ _ hlen
  refine ⟨h1, ?_, ?_⟩
  · rw [hprep, getCell_writeProp_ne _ _ _ _ _ (ne_of_gt hcfg)]
    exact listGetD_append_len _ _ h
  · rw [h1]
    intro heq
    have := hwf h.length heq.symm
    omega

/-- Claim C9 witness. -/
theorem C9_config_mutated_in_place_witness :
    getPropH ((⟨[], [("a", HVal.num 1)]⟩ : HForm).submitPrepare [[]] "get" 0) 0 "params"
      = .ref 1 ∧
    getCell ((⟨[], [("a", HVal.num 1)]⟩ : HForm).submitPrepare [[]] "get" 0) 1
      = [("a", HVal.num 1)] ∧
    getPropH ((⟨[], [("a", HVal.num 1)]⟩ : HForm).submitPrepare [[]] "get" 0) 0 "params"
      ≠ getPropH [[]] 0 "params" := by
  obtain ⟨h1, h2, h3⟩ := C9_config_mutated_in_place [[]] ⟨[], [("a", HVal.num 1)]⟩
    "get" 0 "params" rfl (by decide) (fun b hb => nomatch hb)
  exact ⟨h1, h2.trans rfl, h3⟩
